import Mathlib

/-!
Verification of the substitution-cipher Strategy example
(`src/behavioral_patterns/strategy.ts`).

The embedding models a JavaScript string as its list of UTF-16 code units
(`List Nat`, each unit < 65536; the spec restricts attention to ASCII text).
JavaScript's `%` operator is the truncated remainder, i.e. `Int.tmod`;
`String.fromCharCode` reduces its argument modulo 2^16 (ToUint16).
`char.match(/[a-z]/i)` tests membership in the ASCII letter ranges, and
`toLowerCase` on an ASCII character adds 32 to an upper-case letter and
leaves everything else unchanged.
-/

/-- `char.match(/[a-z]/i)`: the code unit is an ASCII letter. -/
def isAsciiLetter (n : Nat) : Bool :=
  (65 ≤ n && n ≤ 90) || (97 ≤ n && n ≤ 122)

/-- `toLowerCase` restricted to ASCII code units (the only case the spec uses). -/
def asciiToLower (n : Nat) : Nat :=
  if 65 ≤ n && n ≤ 90 then n + 32 else n

/-- `char.toLowerCase() === char ? 97 : 65`: the alphabet base of a letter. -/
def letterBase (n : Nat) : Int :=
  if asciiToLower n = n then 97 else 65

/-- `String.fromCharCode`: ToUint16 of the argument, as a code unit. -/
def fromCharCode (v : Int) : Nat :=
  (v % 65536).toNat

/-- The letter transformation `((code - base + s) % 26) + base` shared by
`CaesarCipher.encrypt` (`s` = the stored shift) and `VigenereCipher.encrypt`
(`s` = the key shift); `%` is JavaScript's truncated remainder. -/
def shiftChar (s : Int) (n : Nat) : Nat :=
  fromCharCode (Int.tmod ((n : Int) - letterBase n + s) 26 + letterBase n)

/-- The letter transformation `((code - base - s + 26) % 26) + base` shared by
`CaesarCipher.decrypt` and `VigenereCipher.decrypt`. -/
def unshiftChar (s : Int) (n : Nat) : Nat :=
  fromCharCode (Int.tmod ((n : Int) - letterBase n - s + 26) 26 + letterBase n)

/-- `CaesarCipher.encrypt`: shift letters, pass everything else through. -/
def caesarEncrypt (shift : Int) (text : List Nat) : List Nat :=
  text.map fun n => if isAsciiLetter n then shiftChar shift n else n

/-- `CaesarCipher.decrypt`: inverse shift, same pass-through rule. -/
def caesarDecrypt (shift : Int) (text : List Nat) : List Nat :=
  text.map fun n => if isAsciiLetter n then unshiftChar shift n else n

/-- `this.key[j % this.key.length].toLowerCase().charCodeAt(0) - 97`.
With an empty key, JavaScript computes `j % 0 = NaN`, `key[NaN]` is
`undefined`, and `.toLowerCase()` throws; the lookup failure is `none`. -/
def vigKeyShift (key : List Nat) (j : Nat) : Option Int :=
  match key[j % key.length]? with
  | none => none
  | some kc => some ((asciiToLower kc : Int) - 97)

/-- The loop of `VigenereCipher.encrypt`: `j` counts the letters seen so far
and is advanced only on letters; non-letters are copied through. -/
def vigenereEncryptGo (key : List Nat) : List Nat → Nat → Option (List Nat)
  | [], _ => some []
  | c :: cs, j =>
    if isAsciiLetter c then
      match vigKeyShift key j with
      | none => none
      | some kc => (vigenereEncryptGo key cs (j + 1)).map fun rest => shiftChar kc c :: rest
    else
      (vigenereEncryptGo key cs j).map fun rest => c :: rest

/-- The loop of `VigenereCipher.decrypt`: identical traversal, inverse shift. -/
def vigenereDecryptGo (key : List Nat) : List Nat → Nat → Option (List Nat)
  | [], _ => some []
  | c :: cs, j =>
    if isAsciiLetter c then
      match vigKeyShift key j with
      | none => none
      | some kc => (vigenereDecryptGo key cs (j + 1)).map fun rest => unshiftChar kc c :: rest
    else
      (vigenereDecryptGo key cs j).map fun rest => c :: rest

/-- `VigenereCipher.encrypt` (the loop starts at `i = 0, j = 0`). -/
def vigenereEncrypt (key text : List Nat) : Option (List Nat) :=
  vigenereEncryptGo key text 0

/-- `VigenereCipher.decrypt`. -/
def vigenereDecrypt (key text : List Nat) : Option (List Nat) :=
  vigenereDecryptGo key text 0

/-- The code units of an ASCII string literal, for concrete scenarios. -/
def strToUnits (s : String) : List Nat :=
  s.data.map Char.toNat

/-- The `CipherStrategy` interface: a pair of (possibly failing) text
transformations. -/
structure CipherStrategy where
  encrypt : List Nat → Option (List Nat)
  decrypt : List Nat → Option (List Nat)

/-- A `CaesarCipher` instance viewed through the `CipherStrategy` interface;
its operations always return a string. -/
def caesarStrategy (shift : Int) : CipherStrategy :=
  { encrypt := fun t => some (caesarEncrypt shift t)
    decrypt := fun t => some (caesarDecrypt shift t) }

/-- A `VigenereCipher` instance viewed through the `CipherStrategy` interface. -/
def vigenereStrategy (key : List Nat) : CipherStrategy :=
  { encrypt := vigenereEncrypt key
    decrypt := vigenereDecrypt key }

/-- The `TextCipher` context: holds exactly one active strategy. -/
structure TextCipher where
  strategy : CipherStrategy

/-- `TextCipher.setStrategy`: replaces the active strategy, no validation. -/
def TextCipher.setStrategy (_c : TextCipher) (s : CipherStrategy) : TextCipher :=
  { strategy := s }

/-- `TextCipher.encrypt`: delegates verbatim to the active strategy. -/
def TextCipher.encrypt (c : TextCipher) (t : List Nat) : Option (List Nat) :=
  c.strategy.encrypt t

/-- `TextCipher.decrypt`: delegates verbatim to the active strategy. -/
def TextCipher.decrypt (c : TextCipher) (t : List Nat) : Option (List Nat) :=
  c.strategy.decrypt t

/-- The operations a caller can perform on one `TextCipher` instance. -/
inductive CipherOp where
  | doSetStrategy (s : CipherStrategy)
  | doEncrypt (t : List Nat)
  | doDecrypt (t : List Nat)

/-- Running one operation on a context: the updated context and the
returned text, if any. Only `setStrategy` changes the instance's state. -/
def TextCipher.applyOp (c : TextCipher) : CipherOp → TextCipher × Option (List Nat)
  | .doSetStrategy s => (c.setStrategy s, none)
  | .doEncrypt t => (c, c.encrypt t)
  | .doDecrypt t => (c, c.decrypt t)

/-- A system of two distinct context instances; an operation is dispatched
to exactly one of them (`true` = the first). -/
def stepPair (onFirst : Bool) (op : CipherOp) (st : TextCipher × TextCipher) :
    (TextCipher × TextCipher) × Option (List Nat) :=
  if onFirst then
    (((st.1.applyOp op).1, st.2), (st.1.applyOp op).2)
  else
    ((st.1, (st.2.applyOp op).1), (st.2.applyOp op).2)

/-! ### Helper lemmas about characters -/

theorem isAsciiLetter_iff (n : Nat) :
    isAsciiLetter n = true ↔ (65 ≤ n ∧ n ≤ 90) ∨ (97 ≤ n ∧ n ≤ 122) := by
  simp [isAsciiLetter]

theorem letterBase_upper (n : Nat) (h1 : 65 ≤ n) (h2 : n ≤ 90) : letterBase n = 65 := by
  have h : asciiToLower n = n + 32 := by
    unfold asciiToLower
    rw [if_pos]
    simp only [Bool.and_eq_true, decide_eq_true_eq]
    exact ⟨h1, h2⟩
  unfold letterBase
  rw [h]
  rw [if_neg]
  omega

theorem letterBase_lower (n : Nat) (h1 : 97 ≤ n) (h2 : n ≤ 122) : letterBase n = 97 := by
  have h : asciiToLower n = n := by
    unfold asciiToLower
    rw [if_neg]
    simp only [Bool.and_eq_true, decide_eq_true_eq]
    omega
  unfold letterBase
  rw [h]
  rw [if_pos rfl]

/-- A letter lies in the 26-letter band of its base. -/
theorem letter_band (n : Nat) (h : isAsciiLetter n = true) :
    (letterBase n = 65 ∧ 65 ≤ n ∧ n ≤ 90) ∨ (letterBase n = 97 ∧ 97 ≤ n ∧ n ≤ 122) := by
  rcases (isAsciiLetter_iff n).mp h with ⟨h1, h2⟩ | ⟨h1, h2⟩
  · exact Or.inl ⟨letterBase_upper n h1 h2, h1, h2⟩
  · exact Or.inr ⟨letterBase_lower n h1 h2, h1, h2⟩

theorem upper_letter (m : Nat) (h1 : 65 ≤ m) (h2 : m ≤ 90) :
    isAsciiLetter m = true ∧ letterBase m = 65 :=
  ⟨(isAsciiLetter_iff m).mpr (Or.inl ⟨h1, h2⟩), letterBase_upper m h1 h2⟩

theorem lower_letter (m : Nat) (h1 : 97 ≤ m) (h2 : m ≤ 122) :
    isAsciiLetter m = true ∧ letterBase m = 97 :=
  ⟨(isAsciiLetter_iff m).mpr (Or.inr ⟨h1, h2⟩), letterBase_lower m h1 h2⟩

/-- For a non-negative shift the truncated remainder agrees with the
mathematical one, and `shiftChar` lands back in the letter band. -/
theorem shiftChar_int (s : Int) (n : Nat) (hs : 0 ≤ s) (h : isAsciiLetter n = true) :
    (shiftChar s n : Int) = ((n : Int) - letterBase n + s) % 26 + letterBase n ∧
    letterBase n ≤ (shiftChar s n : Int) ∧ (shiftChar s n : Int) ≤ letterBase n + 25 := by
  have hb := letter_band n h
  unfold shiftChar fromCharCode
  rw [Int.tmod_eq_emod (by omega) (by norm_num)]
  omega

theorem shiftChar_band (s : Int) (n : Nat) (hs : 0 ≤ s) (h : isAsciiLetter n = true) :
    isAsciiLetter (shiftChar s n) = true ∧ letterBase (shiftChar s n) = letterBase n := by
  have hb := letter_band n h
  have hi := shiftChar_int s n hs h
  rcases hb with ⟨hb, h1, h2⟩ | ⟨hb, h1, h2⟩
  · rw [hb] at hi
    have := upper_letter (shiftChar s n) (by omega) (by omega)
    exact ⟨this.1, by rw [this.2, hb]⟩
  · rw [hb] at hi
    have := lower_letter (shiftChar s n) (by omega) (by omega)
    exact ⟨this.1, by rw [this.2, hb]⟩

/-- For a shift at most 26 the decrypt-direction remainder is also the
mathematical one. -/
theorem unshiftChar_int (s : Int) (n : Nat) (hs : s ≤ 26) (h : isAsciiLetter n = true) :
    (unshiftChar s n : Int) = ((n : Int) - letterBase n - s + 26) % 26 + letterBase n ∧
    letterBase n ≤ (unshiftChar s n : Int) ∧ (unshiftChar s n : Int) ≤ letterBase n + 25 := by
  have hb := letter_band n h
  unfold unshiftChar fromCharCode
  rw [Int.tmod_eq_emod (by omega) (by norm_num)]
  omega

theorem unshiftChar_band (s : Int) (n : Nat) (hs : s ≤ 26) (h : isAsciiLetter n = true) :
    isAsciiLetter (unshiftChar s n) = true ∧ letterBase (unshiftChar s n) = letterBase n := by
  have hb := letter_band n h
  have hi := unshiftChar_int s n hs h
  rcases hb with ⟨hb, h1, h2⟩ | ⟨hb, h1, h2⟩
  · rw [hb] at hi
    have := upper_letter (unshiftChar s n) (by omega) (by omega)
    exact ⟨this.1, by rw [this.2, hb]⟩
  · rw [hb] at hi
    have := lower_letter (unshiftChar s n) (by omega) (by omega)
    exact ⟨this.1, by rw [this.2, hb]⟩

/-- Per-character round trip, for shifts between 0 and 26. -/
theorem unshiftChar_shiftChar (s : Int) (n : Nat) (hs0 : 0 ≤ s) (hs1 : s ≤ 26)
    (h : isAsciiLetter n = true) : unshiftChar s (shiftChar s n) = n := by
  have hb := letter_band n h
  have hi := shiftChar_int s n hs0 h
  have hl := (shiftChar_band s n hs0 h).1
  have hbase := (shiftChar_band s n hs0 h).2
  have hi2 := unshiftChar_int s (shiftChar s n) hs1 hl
  rw [hbase] at hi2
  omega

/-! ### Helper lemmas about the Vigenère keystream -/

/-- With a non-empty key the keystream lookup always succeeds, on a key
character. -/
theorem vigKeyShift_some (key : List Nat) (hne : key ≠ []) (j : Nat) :
    ∃ m ∈ key, vigKeyShift key j = some ((asciiToLower m : Int) - 97) := by
  have hlen : 0 < key.length := List.length_pos.mpr hne
  have hlt : j % key.length < key.length := Nat.mod_lt _ hlen
  unfold vigKeyShift
  cases hget : key[j % key.length]? with
  | none =>
    have : key.length ≤ j % key.length := by simpa using hget
    omega
  | some m => exact ⟨m, List.getElem?_mem hget, rfl⟩

/-- An ASCII letter case-folds into the lower-case band. -/
theorem asciiToLower_letter (m : Nat) (h : isAsciiLetter m = true) :
    97 ≤ asciiToLower m ∧ asciiToLower m ≤ 122 := by
  rcases (isAsciiLetter_iff m).mp h with ⟨h1, h2⟩ | ⟨h1, h2⟩
  · unfold asciiToLower
    rw [if_pos]
    · omega
    · simp only [Bool.and_eq_true, decide_eq_true_eq]
      exact ⟨h1, h2⟩
  · unfold asciiToLower
    rw [if_neg]
    · omega
    · simp only [Bool.and_eq_true, decide_eq_true_eq]
      omega

/-- For a key made of ASCII letters every keystream shift lies in `[0, 25]`. -/
theorem vigKeyShift_bounds (key : List Nat) (j : Nat) (kc : Int)
    (hka : ∀ m ∈ key, isAsciiLetter m = true) (h : vigKeyShift key j = some kc) :
    0 ≤ kc ∧ kc ≤ 25 := by
  unfold vigKeyShift at h
  cases hget : key[j % key.length]? with
  | none => rw [hget] at h; exact absurd h (by simp)
  | some m =>
    rw [hget] at h
    have hm := asciiToLower_letter m (hka m (List.getElem?_mem hget))
    have : kc = (asciiToLower m : Int) - 97 := by
      injection h with h
      omega
    omega

/-- Loop-level Vigenère round trip: decrypting an encryption, starting from
the same key index, restores the text, for an all-letter key. -/
theorem vig_go_roundtrip (key : List Nat) (hne : key ≠ [])
    (hka : ∀ m ∈ key, isAsciiLetter m = true) :
    ∀ (t e : List Nat) (j : Nat), vigenereEncryptGo key t j = some e →
      vigenereDecryptGo key e j = some t := by
  intro t
  induction t with
  | nil =>
    intro e j h
    unfold vigenereEncryptGo at h
    injection h with h
    rw [← h]
    rfl
  | cons c cs ih =>
    intro e j h
    unfold vigenereEncryptGo at h
    by_cases hc : isAsciiLetter c = true
    · rw [if_pos hc] at h
      obtain ⟨m, hmem, hks⟩ := vigKeyShift_some key hne j
      rw [hks] at h
      set kc : Int := (asciiToLower m : Int) - 97 with hkc
      have hbounds : 0 ≤ kc ∧ kc ≤ 25 := vigKeyShift_bounds key j kc hka hks
      cases henc : vigenereEncryptGo key cs (j + 1) with
      | none => rw [henc] at h; exact absurd h (by simp)
      | some e' =>
        rw [henc] at h
        simp only [Option.map_some'] at h
        injection h with h
        rw [← h]
        unfold vigenereDecryptGo
        rw [if_pos (shiftChar_band kc c hbounds.1 hc).1, hks, ih e' (j + 1) henc]
        simp only [Option.map_some']
        rw [unshiftChar_shiftChar kc c hbounds.1 (by omega) hc]
    · rw [if_neg hc] at h
      cases henc : vigenereEncryptGo key cs j with
      | none => rw [henc] at h; exact absurd h (by simp)
      | some e' =>
        rw [henc] at h
        simp only [Option.map_some'] at h
        injection h with h
        rw [← h]
        unfold vigenereDecryptGo
        rw [if_neg hc, ih e' j henc]
        rfl

/-- With a non-empty key both loops always return a string. -/
theorem vig_go_total (key : List Nat) (hne : key ≠ []) :
    ∀ (t : List Nat) (j : Nat), (vigenereEncryptGo key t j).isSome = true ∧
      (vigenereDecryptGo key t j).isSome = true := by
  intro t
  induction t with
  | nil => intro j; exact ⟨rfl, rfl⟩
  | cons c cs ih =>
    intro j
    obtain ⟨m, _, hks⟩ := vigKeyShift_some key hne j
    unfold vigenereEncryptGo vigenereDecryptGo
    by_cases hc : isAsciiLetter c = true
    · rw [if_pos hc, if_pos hc, hks]
      cases henc : vigenereEncryptGo key cs (j + 1) with
      | none => exact absurd ((ih (j + 1)).1) (by rw [henc]; simp)
      | some e' =>
        cases hdec : vigenereDecryptGo key cs (j + 1) with
        | none => exact absurd ((ih (j + 1)).2) (by rw [hdec]; simp)
        | some d' => exact ⟨by simp, by simp⟩
    · rw [if_neg hc, if_neg hc]
      cases henc : vigenereEncryptGo key cs j with
      | none => exact absurd ((ih j).1) (by rw [henc]; simp)
      | some e' =>
        cases hdec : vigenereDecryptGo key cs j with
        | none => exact absurd ((ih j).2) (by rw [hdec]; simp)
        | some d' => exact ⟨by simp, by simp⟩

theorem asciiToLower_idem (n : Nat) : asciiToLower (asciiToLower n) = asciiToLower n := by
  unfold asciiToLower
  by_cases h : (65 ≤ n && n ≤ 90) = true
  · rw [if_pos h, if_neg]
    simp only [Bool.and_eq_true, decide_eq_true_eq] at h ⊢
    omega
  · rw [if_neg h, if_neg h]

/-- Lower-casing the key does not change the keystream. -/
theorem vigKeyShift_map_toLower (key : List Nat) (j : Nat) :
    vigKeyShift (key.map asciiToLower) j = vigKeyShift key j := by
  unfold vigKeyShift
  rw [List.length_map, List.getElem?_map]
  cases key[j % key.length]? with
  | none => rfl
  | some m => simp only [Option.map_some']; rw [asciiToLower_idem]

/-- Loop-level key case-folding: both loops behave identically on the
lower-cased key. -/
theorem vig_go_map_toLower (key : List Nat) :
    ∀ (t : List Nat) (j : Nat),
      vigenereEncryptGo (key.map asciiToLower) t j = vigenereEncryptGo key t j ∧
      vigenereDecryptGo (key.map asciiToLower) t j = vigenereDecryptGo key t j := by
  intro t
  induction t with
  | nil => intro j; exact ⟨rfl, rfl⟩
  | cons c cs ih =>
    intro j
    unfold vigenereEncryptGo vigenereDecryptGo
    by_cases hc : isAsciiLetter c = true
    · rw [if_pos hc, if_pos hc, if_pos hc, if_pos hc, vigKeyShift_map_toLower,
        (ih (j + 1)).1, (ih (j + 1)).2]
      exact ⟨rfl, rfl⟩
    · rw [if_neg hc, if_neg hc, if_neg hc, if_neg hc, (ih j).1, (ih j).2]
      exact ⟨rfl, rfl⟩

/-- The keystream of a one-character key is constant. -/
theorem vigKeyShift_single (c : Nat) (j : Nat) :
    vigKeyShift [c] j = some ((asciiToLower c : Int) - 97) := by
  unfold vigKeyShift
  rw [List.length_singleton, Nat.mod_one]
  rfl

/-- Loop-level: a one-character key makes Vigenère a Caesar cipher with
shift `asciiToLower c - 97`. -/
theorem vig_go_single (c : Nat) :
    ∀ (t : List Nat) (j : Nat),
      vigenereEncryptGo [c] t j = some (caesarEncrypt ((asciiToLower c : Int) - 97) t) ∧
      vigenereDecryptGo [c] t j = some (caesarDecrypt ((asciiToLower c : Int) - 97) t) := by
  intro t
  induction t with
  | nil => intro j; exact ⟨rfl, rfl⟩
  | cons d ds ih =>
    intro j
    unfold vigenereEncryptGo vigenereDecryptGo
    unfold caesarEncrypt caesarDecrypt
    simp only [List.map_cons]
    by_cases hd : isAsciiLetter d = true
    · rw [if_pos hd, if_pos hd, if_pos hd, if_pos hd, vigKeyShift_single,
        (ih (j + 1)).1, (ih (j + 1)).2]
      exact ⟨rfl, rfl⟩
    · rw [if_neg hd, if_neg hd, if_neg hd, if_neg hd, (ih j).1, (ih j).2]
      exact ⟨rfl, rfl⟩

/-- List-level Caesar round trip for shifts between 0 and 26. -/
theorem caesar_roundtrip_list (k : Int) (hk0 : 0 ≤ k) (hk1 : k ≤ 26) (t : List Nat) :
    caesarDecrypt k (caesarEncrypt k t) = t := by
  induction t with
  | nil => rfl
  | cons c cs ih =>
    unfold caesarEncrypt caesarDecrypt at ih ⊢
    simp only [List.map_cons, List.cons.injEq]
    refine ⟨?_, ih⟩
    by_cases hc : isAsciiLetter c = true
    · rw [if_pos hc, if_pos (shiftChar_band k c hk0 hc).1]
      exact unshiftChar_shiftChar k c hk0 hk1 hc
    · rw [if_neg hc, if_neg hc]

/-! ### Claims -/

/-- C1, counterexample: with the negative shift `-1` the JavaScript remainder
is negative, `caesarEncrypt` turns `"a"` into the non-letter backquote (96),
and `caesarDecrypt` passes it through, so the round trip fails. -/
theorem C1_counterexample :
    caesarDecrypt (-1) (caesarEncrypt (-1) (strToUnits "a")) ≠ strToUnits "a" := by
  decide

/-- C1 (amended): for every shift `k` with `0 ≤ k ≤ 26` and every ASCII text
`t`, decrypting the encryption of `t` with the same shift returns `t`. -/
theorem C1_caesar_roundtrip (k : Int) (t : List Nat) (hk0 : 0 ≤ k) (hk1 : k ≤ 26)
    (ht : ∀ n ∈ t, n < 128) : caesarDecrypt k (caesarEncrypt k t) = t :=
  caesar_roundtrip_list k hk0 hk1 t

/-- Witness for C1 at shift 3 on `"Hello, World!"`. -/
theorem C1_witness :
    caesarDecrypt 3 (caesarEncrypt 3 (strToUnits "Hello, World!")) =
      strToUnits "Hello, World!" :=
  C1_caesar_roundtrip 3 (strToUnits "Hello, World!") (by decide) (by decide) (by decide)

/-- C2, counterexample: the non-empty key `"1"` gives the keystream shift
`49 - 97 = -48`; encrypting `"a"` yields the upper-case letter `"K"` and
decrypting it back yields `"G"`, not `"a"`. -/
theorem C2_counterexample :
    (vigenereEncrypt (strToUnits "1") (strToUnits "a")).bind
      (vigenereDecrypt (strToUnits "1")) ≠ some (strToUnits "a") := by
  decide

/-- C2 (amended): for every non-empty key consisting of ASCII letters and
every ASCII text `t`, decrypting the encryption of `t` with the same key
returns `t`. -/
theorem C2_vigenere_roundtrip (key t : List Nat) (hne : key ≠ [])
    (hka : ∀ m ∈ key, isAsciiLetter m = true) (ht : ∀ n ∈ t, n < 128) :
    (vigenereEncrypt key t).bind (vigenereDecrypt key) = some t := by
  cases henc : vigenereEncrypt key t with
  | none =>
    have := (vig_go_total key hne t 0).1
    unfold vigenereEncrypt at henc
    rw [henc] at this
    simp at this
  | some e =>
    have hd : vigenereDecryptGo key e 0 = some t :=
      vig_go_roundtrip key hne hka t e 0 henc
    simp only [Option.some_bind]
    exact hd

/-- Witness for C2 with key `"KEY"` on `"Hello, World!"`. -/
theorem C2_witness :
    (vigenereEncrypt (strToUnits "KEY") (strToUnits "Hello, World!")).bind
      (vigenereDecrypt (strToUnits "KEY")) = some (strToUnits "Hello, World!") :=
  C2_vigenere_roundtrip (strToUnits "KEY") (strToUnits "Hello, World!")
    (by decide) (by decide) (by decide)

/-- C3, counterexample: at shift `-1` the code maps `"a"` (97) to 96, a
non-letter, whereas the claimed formula `((code - base + k) mod 26) + base`
with the mathematical modulo gives 122 (`"z"`); negative shifts are not
normalized. -/
theorem C3_counterexample :
    caesarEncrypt (-1) (strToUnits "a") = [96] ∧ isAsciiLetter 96 = false ∧
    (((97 : Int) - 97 + (-1)) % 26 + 97).toNat = 122 := by
  decide

/-- C3 (amended): for every non-negative shift `k` (including `k ≥ 26`),
Caesar encryption maps each letter to `((code - base + k) mod 26) + base`
within its case's alphabet — a letter of the same case — and passes every
other character through unchanged, with no error condition. -/
theorem C3_caesar_encrypt_formula (k : Int) (t : List Nat) (hk : 0 ≤ k) :
    caesarEncrypt k t =
      t.map (fun n => if isAsciiLetter n
        then (((n : Int) - letterBase n + k) % 26 + letterBase n).toNat else n) ∧
    ∀ n, isAsciiLetter n = true →
      isAsciiLetter (shiftChar k n) = true ∧ letterBase (shiftChar k n) = letterBase n := by
  constructor
  · unfold caesarEncrypt
    apply List.map_congr_left
    intro n _
    by_cases hn : isAsciiLetter n = true
    · rw [if_pos hn, if_pos hn]
      have := (shiftChar_int k n hk hn).1
      omega
    · rw [if_neg hn, if_neg hn]
  · intro n hn
    exact shiftChar_band k n hk hn

/-- Witness for C3 at shift 29 on `"Az!"`. -/
theorem C3_witness :
    caesarEncrypt 29 (strToUnits "Az!") =
      (strToUnits "Az!").map (fun n => if isAsciiLetter n
        then (((n : Int) - letterBase n + 29) % 26 + letterBase n).toNat else n) ∧
    isAsciiLetter (shiftChar 29 122) = true ∧ letterBase (shiftChar 29 122) = letterBase 122 :=
  ⟨(C3_caesar_encrypt_formula 29 (strToUnits "Az!") (by decide)).1,
   (C3_caesar_encrypt_formula 29 (strToUnits "Az!") (by decide)).2 122 (by decide)⟩

/-- C4, counterexample: the code does not drop non-alphabetic key
characters. With key `"a1"` the digit `"1"` produces the keystream shift
`-48`, so encrypting `"ab"` gives `"aL"`, while the key obtained by dropping
non-alphabetic characters and lower-casing (`"a"`) gives `"ab"`. -/
theorem C4_counterexample :
    vigenereEncrypt (strToUnits "a1") (strToUnits "ab") ≠
      vigenereEncrypt (((strToUnits "a1").filter isAsciiLetter).map asciiToLower)
        (strToUnits "ab") := by
  decide

/-- C4 (amended): the key is case-folded — encrypting (or decrypting) with
any key yields the same result as with the lower-cased key — but
non-alphabetic key characters are not dropped: they participate in
keystream generation. -/
theorem C4_key_casefold (key t : List Nat) :
    vigenereEncrypt (key.map asciiToLower) t = vigenereEncrypt key t ∧
    vigenereDecrypt (key.map asciiToLower) t = vigenereDecrypt key t :=
  ⟨(vig_go_map_toLower key t 0).1, (vig_go_map_toLower key t 0).2⟩

/-- C5, counterexample: case preservation fails for a negative Caesar
shift — at shift `-1` the lower-case letter `"a"` (97) becomes 96, which is
not a letter at all, so its case is not preserved. -/
theorem C5_counterexample :
    caesarEncrypt (-1) (strToUnits "a") = [96] ∧ isAsciiLetter 97 = true ∧
    isAsciiLetter 96 = false := by
  decide

/-- C5 (amended): non-alphabetic characters pass through every encrypt and
decrypt of both ciphers unchanged at their position and never advance the
Vigenère key index (universally); each letter's case is preserved per
character for Caesar shifts in `[0, 26]` and for all-letter Vigenère keys
(whose keystream shifts lie in `[0, 25]`); `caesarEncrypt "AbC" 1 = "BcD"`
and `vigenereEncrypt "a1b" "KEY" = "k1f"` advances the key only on letters. -/
theorem C5_per_char_invariant :
    (∀ (k : Int) (c : Nat) (cs : List Nat), isAsciiLetter c = false →
      caesarEncrypt k (c :: cs) = c :: caesarEncrypt k cs ∧
      caesarDecrypt k (c :: cs) = c :: caesarDecrypt k cs) ∧
    (∀ (key : List Nat) (j : Nat) (c : Nat) (cs : List Nat), isAsciiLetter c = false →
      vigenereEncryptGo key (c :: cs) j = (vigenereEncryptGo key cs j).map (fun r => c :: r) ∧
      vigenereDecryptGo key (c :: cs) j = (vigenereDecryptGo key cs j).map (fun r => c :: r)) ∧
    (∀ (k : Int) (n : Nat), 0 ≤ k → k ≤ 26 → isAsciiLetter n = true →
      isAsciiLetter (shiftChar k n) = true ∧ letterBase (shiftChar k n) = letterBase n ∧
      isAsciiLetter (unshiftChar k n) = true ∧ letterBase (unshiftChar k n) = letterBase n) ∧
    (∀ (key : List Nat) (j : Nat) (kc : Int), (∀ m ∈ key, isAsciiLetter m = true) →
      vigKeyShift key j = some kc → 0 ≤ kc ∧ kc ≤ 25) ∧
    caesarEncrypt 1 (strToUnits "AbC") = strToUnits "BcD" ∧
    vigenereEncrypt (strToUnits "KEY") (strToUnits "a1b") = some (strToUnits "k1f") := by
  refine ⟨?_, ?_, ?_, ?_, by decide, by decide⟩
  · intro k c cs hc
    have hc' : ¬ isAsciiLetter c = true := by rw [hc]; simp
    unfold caesarEncrypt caesarDecrypt
    simp only [List.map_cons]
    rw [if_neg hc', if_neg hc']
    exact ⟨rfl, rfl⟩
  · intro key j c cs hc
    have hc' : ¬ isAsciiLetter c = true := by rw [hc]; simp
    constructor
    · conv_lhs => unfold vigenereEncryptGo
      rw [if_neg hc']
    · conv_lhs => unfold vigenereDecryptGo
      rw [if_neg hc']
  · intro k n hk0 hk1 hn
    exact ⟨(shiftChar_band k n hk0 hn).1, (shiftChar_band k n hk0 hn).2,
      (unshiftChar_band k n hk1 hn).1, (unshiftChar_band k n hk1 hn).2⟩
  · intro key j kc hka h
    exact vigKeyShift_bounds key j kc hka h

/-- Witness for C5: the non-letter `"?"` (63) passes through both ciphers
without advancing the key, a shift-7 image of `"z"` is a letter of the same
case, and the keystream shift of `"KEY"` at index 0 is bounded. -/
theorem C5_witness :
    caesarEncrypt 7 (63 :: [97]) = 63 :: caesarEncrypt 7 [97] ∧
    vigenereEncryptGo (strToUnits "KEY") (63 :: [97]) 0 =
      (vigenereEncryptGo (strToUnits "KEY") [97] 0).map (fun r => 63 :: r) ∧
    isAsciiLetter (shiftChar 7 122) = true ∧
    (0 : Int) ≤ 10 ∧ (10 : Int) ≤ 25 :=
  ⟨(C5_per_char_invariant.1 7 63 [97] (by decide)).1,
   (C5_per_char_invariant.2.1 (strToUnits "KEY") 0 63 [97] (by decide)).1,
   (C5_per_char_invariant.2.2.1 7 122 (by decide) (by decide) (by decide)).1,
   C5_per_char_invariant.2.2.2.1 (strToUnits "KEY") 0 10 (by decide) (by decide)⟩

/-- C6: the concrete scenarios of the spec and the example driver. -/
theorem C6_concrete_scenarios :
    caesarEncrypt 3 (strToUnits "Hello, World!") = strToUnits "Khoor, Zruog!" ∧
    caesarDecrypt 3 (strToUnits "Khoor, Zruog!") = strToUnits "Hello, World!" ∧
    vigenereEncrypt (strToUnits "KEY") (strToUnits "Hello, World!") =
      some (strToUnits "Rijvs, Uyvjn!") ∧
    vigenereDecrypt (strToUnits "KEY") (strToUnits "Rijvs, Uyvjn!") =
      some (strToUnits "Hello, World!") := by
  decide

/-- C7: totality for valid parameters — Caesar encryption and decryption
return a string of the input's length for every integer shift, and with any
non-empty key both Vigenère operations return a string on every input. -/
theorem C7_totality (k : Int) (key t : List Nat) (hne : key ≠ []) :
    (caesarEncrypt k t).length = t.length ∧ (caesarDecrypt k t).length = t.length ∧
    (vigenereEncrypt key t).isSome = true ∧ (vigenereDecrypt key t).isSome = true := by
  refine ⟨?_, ?_, (vig_go_total key hne t 0).1, (vig_go_total key hne t 0).2⟩
  · unfold caesarEncrypt
    exact List.length_map t _
  · unfold caesarDecrypt
    exact List.length_map t _

/-- Witness for C7 at shift `-5`, key `"KEY"`, text `"Hello!"`. -/
theorem C7_witness :
    (caesarEncrypt (-5) (strToUnits "Hello!")).length = (strToUnits "Hello!").length ∧
    (caesarDecrypt (-5) (strToUnits "Hello!")).length = (strToUnits "Hello!").length ∧
    (vigenereEncrypt (strToUnits "KEY") (strToUnits "Hello!")).isSome = true ∧
    (vigenereDecrypt (strToUnits "KEY") (strToUnits "Hello!")).isSome = true :=
  C7_totality (-5) (strToUnits "KEY") (strToUnits "Hello!") (by decide)

/-- C8: after `setStrategy s` the context's operations equal `s`'s operations
(verbatim delegation, immediate, no validation), plain `encrypt`/`decrypt`
delegate to the active strategy, and an operation dispatched to one of two
distinct context instances leaves the other instance unchanged. -/
theorem C8_context_delegation (c : TextCipher) (s : CipherStrategy) (t : List Nat)
    (st : TextCipher × TextCipher) (op : CipherOp) :
    (c.setStrategy s).encrypt t = s.encrypt t ∧
    (c.setStrategy s).decrypt t = s.decrypt t ∧
    c.encrypt t = c.strategy.encrypt t ∧
    c.decrypt t = c.strategy.decrypt t ∧
    (stepPair true op st).1.2 = st.2 ∧
    (stepPair false op st).1.1 = st.1 := by
  refine ⟨rfl, rfl, rfl, rfl, ?_, ?_⟩ <;> simp [stepPair]

/-- C9: on the driver's pinned inputs, encrypting with the Vigenère strategy
and then decrypting on the same context after swapping in the Caesar
strategy is defined, yields the fixed string `"Aidz jn h tzjsza nzztvnf."`,
and does not restore the original text. -/
theorem C9_strategy_swap :
    (TextCipher.mk (vigenereStrategy (strToUnits "KEY"))).encrypt
        (strToUnits "This is a secret message.") =
      some (strToUnits "Dlgc mq k wcmvcd qccwyqi.") ∧
    ((TextCipher.mk (vigenereStrategy (strToUnits "KEY"))).setStrategy
        (caesarStrategy 3)).decrypt (strToUnits "Dlgc mq k wcmvcd qccwyqi.") =
      some (strToUnits "Aidz jn h tzjsza nzztvnf.") ∧
    strToUnits "Aidz jn h tzjsza nzztvnf." ≠ strToUnits "This is a secret message." := by
  decide

/-- C10: for an alphabetic one-character key `c`, Vigenère encryption and
decryption coincide with the Caesar cipher at shift `lowercase c - 97`. -/
theorem C10_single_letter_key (c : Nat) (t : List Nat) (hc : isAsciiLetter c = true) :
    vigenereEncrypt [c] t = some (caesarEncrypt ((asciiToLower c : Int) - 97) t) ∧
    vigenereDecrypt [c] t = some (caesarDecrypt ((asciiToLower c : Int) - 97) t) :=
  ⟨(vig_go_single c t 0).1, (vig_go_single c t 0).2⟩

/-- Witness for C10 with key `"K"` on `"Hello, World!"`. -/
theorem C10_witness :
    vigenereEncrypt [75] (strToUnits "Hello, World!") =
      some (caesarEncrypt ((asciiToLower 75 : Int) - 97) (strToUnits "Hello, World!")) ∧
    vigenereDecrypt [75] (strToUnits "Hello, World!") =
      some (caesarDecrypt ((asciiToLower 75 : Int) - 97) (strToUnits "Hello, World!")) :=
  C10_single_letter_key 75 (strToUnits "Hello, World!") (by decide)
